import Mathlib

/-!
# Verification of the Benford's-Law annual-report analyzer

A shallow embedding, in Lean 4, of the core of the analyzer:

* `src/core/pdf_parser.py` — cell cleaning (`_clean_cell`) and the
  9-column header repair of `extract_tables`;
* `src/core/benford_analyzer.py` — numeric-fact harvesting
  (`_extract_valid_numbers_with_details`), positional-digit extraction
  (`_get_digit_at_position`), the theoretical-distribution digit range
  (`_get_theoretical_distribution`), the chi-square computation and
  the verdict synthesis (`_generate_dynamic_conclusion`), assembled in
  `BenfordAnalyzer.analyze`.

Conventions of the embedding:

* Python floats are modelled as exact rationals (`ℚ`); `math.log`-based
  quantities that are genuinely transcendental (the Benford
  probabilities, the scipy chi-square tail functions, `"%.4f"` float
  formatting) are supplied as an abstract oracle record
  (`NumericOracles`), since none of the verified properties depend on
  their values.  The *integer* part of `math.log(num, base)` used by
  digit extraction is exact on rationals and is modelled exactly.
* Python character classes (`\w`, `\s`, `\d`, `str.lower`, `str.strip`)
  are modelled on their ASCII core plus the CJK ranges the code names
  explicitly; all string data handled by the program (Chinese labels,
  decimal numerals) lies in that fragment.
* A Python `raise` is an `Except.error`; a `return` is `Except.ok`.
-/

namespace BenfordApp

/-! ## Cell normalizer — `PDFParser._clean_cell` (src/core/pdf_parser.py:131-148)

`_clean_cell` is: `re.sub(r'[^\w\s一-鿿\-\.]', '', cell)`, then
`re.sub(r'\s+', ' ', cell).strip()`, with `""` returned up front for a
falsy (`None` or empty) cell. -/

/-- Whitespace characters: the ASCII core of the regex class `\s`
(and of `str.strip`'s default set). -/
def isSpaceChar (c : Char) : Bool :=
  c = ' ' || c = '\t' || c = '\n' || c = '\x0d' || c = '\x0b' || c = '\x0c'

/-- The regex class `\w`: alphanumeric or underscore (ASCII core). -/
def isWordChar (c : Char) : Bool :=
  c.isAlphanum || c = '_'

/-- The explicit CJK range `一-鿿` of the cleaning regex. -/
def isCJKChar (c : Char) : Bool :=
  0x4e00 ≤ c.toNat && c.toNat ≤ 0x9fff

/-- The characters *kept* by `re.sub(r'[^\w\s一-鿿\-\.]', '', ·)`. -/
def isAllowedChar (c : Char) : Bool :=
  isWordChar c || isSpaceChar c || isCJKChar c || c = '-' || c = '.'

/-- Model of `re.sub(r'\s+', ' ', ·)` as a one-pass automaton: the `Bool`
argument records whether the previous character was whitespace (in
which case the current whitespace character extends an already-replaced
run and is dropped). -/
def collapseWsAux : Bool → List Char → List Char
  | _, [] => []
  | true, c :: rest =>
    if isSpaceChar c then collapseWsAux true rest
    else c :: collapseWsAux false rest
  | false, c :: rest =>
    if isSpaceChar c then ' ' :: collapseWsAux true rest
    else c :: collapseWsAux false rest

/-- Model of `re.sub(r'\s+', ' ', ·)`: every maximal whitespace run becomes one space. -/
def collapseWs (l : List Char) : List Char :=
  collapseWsAux false l

/-- Model of `str.strip()` on a character list: drop whitespace from both ends. -/
def wsTrimList (l : List Char) : List Char :=
  ((l.dropWhile isSpaceChar).reverse.dropWhile isSpaceChar).reverse

/-- Model of `str.strip()`. -/
def stripStr (s : String) : String :=
  ⟨wsTrimList s.toList⟩

/-- Model of `PDFParser._clean_cell` on a (non-falsy) string. -/
def cleanCellStr (s : String) : String :=
  ⟨wsTrimList (collapseWs (s.toList.filter isAllowedChar))⟩

/-- Model of `PDFParser._clean_cell`: `None` (and `""`, both falsy) return `""`. -/
def cleanCell (cell : Option String) : String :=
  match cell with
  | none => ""
  | some s => if s = "" then "" else cleanCellStr s

/-! ## Header repair — `PDFParser.extract_tables` (src/core/pdf_parser.py:54-70)

When the captured header row has exactly 9 cells, the code copies the
list and performs, in order: `h[3] = h[4]; h[4] = ''; h[6] = h[7];
h[7] = ''`.  Raw cells may be `None` in Python; the repair is
content-agnostic, so cells are modelled as strings. -/

/-- The header repair of `extract_tables`, applied to `table[0]`. -/
def repairHeader (header : List String) : List String :=
  if header.length = 9 then
    let h1 := header.set 3 (header.getD 4 "")
    let h2 := h1.set 4 ""
    let h3 := h2.set 6 (h2.getD 7 "")
    h3.set 7 ""
  else header

/-! ## Lemmas: the whitespace-collapse pass and its normal form -/

/-- Post-collapse normal form: every whitespace character is a plain
space, and no two whitespace characters are adjacent. -/
def WsNormal (l : List Char) : Prop :=
  (∀ c ∈ l, isSpaceChar c = true → c = ' ') ∧
    l.Chain' fun a b => ¬(isSpaceChar a = true ∧ isSpaceChar b = true)

theorem mem_collapseWsAux : ∀ (b : Bool) (l : List Char) (c : Char),
    c ∈ collapseWsAux b l → c = ' ' ∨ c ∈ l := by
  intro b l
  induction l generalizing b with
  | nil => intro c h; cases b <;> simp [collapseWsAux] at h
  | cons d rest ih =>
    intro c h
    by_cases hd : isSpaceChar d = true
    · cases b with
      | true =>
        simp only [collapseWsAux, hd, if_true] at h
        rcases ih true c h with h1 | h1
        · exact Or.inl h1
        · exact Or.inr (List.mem_cons_of_mem d h1)
      | false =>
        simp only [collapseWsAux, hd, if_true, List.mem_cons] at h
        rcases h with h1 | h1
        · exact Or.inl h1
        · rcases ih true c h1 with h2 | h2
          · exact Or.inl h2
          · exact Or.inr (List.mem_cons_of_mem d h2)
    · cases b <;>
      · simp [collapseWsAux, hd] at h
        rcases h with h1 | h1
        · exact Or.inr (by rw [h1]; exact List.mem_cons_self d rest)
        · rcases ih false c h1 with h2 | h2
          · exact Or.inl h2
          · exact Or.inr (List.mem_cons_of_mem d h2)

theorem head?_collapseWsAux_true : ∀ (l : List Char) (c : Char),
    (collapseWsAux true l).head? = some c → isSpaceChar c = false := by
  intro l
  induction l with
  | nil => intro c h; simp [collapseWsAux] at h
  | cons d rest ih =>
    intro c h
    by_cases hd : isSpaceChar d = true
    · simp only [collapseWsAux, hd, if_true] at h
      exact ih c h
    · simp [collapseWsAux, hd] at h
      rw [Bool.not_eq_true] at hd
      subst h
      exact hd

theorem wsNormal_collapseWsAux : ∀ (b : Bool) (l : List Char),
    WsNormal (collapseWsAux b l) := by
  intro b l
  induction l generalizing b with
  | nil =>
    cases b <;> exact ⟨by simp [collapseWsAux], by simp [collapseWsAux]⟩
  | cons d rest ih =>
    by_cases hd : isSpaceChar d = true
    · cases b with
      | true =>
        simp only [collapseWsAux, hd, if_true]
        exact ih true
      | false =>
        simp only [collapseWsAux, hd, if_true]
        refine ⟨?_, ?_⟩
        · intro c hc hsp
          rcases List.mem_cons.mp hc with h1 | h1
          · exact h1
          · exact (ih true).1 c h1 hsp
        · rw [List.chain'_cons']
          refine ⟨?_, (ih true).2⟩
          intro y hy
          have hns := head?_collapseWsAux_true rest y hy
          intro hcontra
          rw [hns] at hcontra
          exact Bool.false_ne_true hcontra.2
    · have hgoal : ∀ b0 : Bool, WsNormal (d :: collapseWsAux false rest) := by
        intro _
        refine ⟨?_, ?_⟩
        · intro c hc hsp
          rcases List.mem_cons.mp hc with h1 | h1
          · rw [h1] at hsp; exact absurd hsp hd
          · exact (ih false).1 c h1 hsp
        · rw [List.chain'_cons']
          refine ⟨?_, (ih false).2⟩
          intro y _ hcontra
          exact hd hcontra.1
      cases b <;> simp only [collapseWsAux, hd, if_false] <;> exact hgoal true

theorem collapseWsAux_fix : ∀ (l : List Char), WsNormal l →
    ∀ b : Bool, (b = true → ∀ c, l.head? = some c → isSpaceChar c = false) →
    collapseWsAux b l = l := by
  intro l
  induction l with
  | nil => intro _ b _; cases b <;> rfl
  | cons d rest ih =>
    intro hN b hb
    have hNtail : WsNormal rest :=
      ⟨fun c hc => hN.1 c (List.mem_cons_of_mem d hc), (List.chain'_cons'.mp hN.2).2⟩
    by_cases hd : isSpaceChar d = true
    · have hdsp : d = ' ' := hN.1 d (List.mem_cons_self d rest) hd
      cases b with
      | true =>
        have hfalse := hb rfl d rfl
        rw [hd] at hfalse
        exact absurd hfalse (by decide)
      | false =>
        simp only [collapseWsAux, hd, if_true]
        have htail : collapseWsAux true rest = rest := by
          refine ih hNtail true fun _ c hc => ?_
          have hrel := (List.chain'_cons'.mp hN.2).1 c hc
          by_contra hne
          rw [Bool.not_eq_false] at hne
          exact hrel ⟨hd, hne⟩
        rw [htail, hdsp]
    · have htail : collapseWsAux false rest = rest :=
        ih hNtail false (by intro h; exact absurd h Bool.false_ne_true)
      cases b <;> simp [collapseWsAux, hd, htail]

theorem chain'_dropWhile {R : Char → Char → Prop} (p : Char → Bool) :
    ∀ l : List Char, l.Chain' R → (l.dropWhile p).Chain' R := by
  intro l h
  induction l with
  | nil => simp
  | cons d rest ih =>
    rw [List.dropWhile_cons]
    split
    · exact ih h.tail
    · exact h

theorem wsNormal_dropWhile (p : Char → Bool) {l : List Char} (h : WsNormal l) :
    WsNormal (l.dropWhile p) :=
  ⟨fun c hc hsp => h.1 c ((List.dropWhile_suffix p).subset hc) hsp,
   chain'_dropWhile p l h.2⟩

theorem wsNormal_reverse {l : List Char} (h : WsNormal l) : WsNormal l.reverse := by
  refine ⟨fun c hc => h.1 c (List.mem_reverse.mp hc), ?_⟩
  rw [List.chain'_reverse]
  exact h.2.imp fun a b hab hxy => hab ⟨hxy.2, hxy.1⟩

theorem wsNormal_wsTrimList {l : List Char} (h : WsNormal l) : WsNormal (wsTrimList l) :=
  wsNormal_reverse (wsNormal_dropWhile _ (wsNormal_reverse (wsNormal_dropWhile _ h)))

theorem wsTrimList_subset (l : List Char) : wsTrimList l ⊆ l := by
  intro c hc
  unfold wsTrimList at hc
  rw [List.mem_reverse] at hc
  have h1 := (List.dropWhile_suffix isSpaceChar).subset hc
  rw [List.mem_reverse] at h1
  exact (List.dropWhile_suffix isSpaceChar).subset h1

theorem head?_dropWhile_false (p : Char → Bool) (l : List Char) :
    ∀ c, (l.dropWhile p).head? = some c → p c = false := by
  intro c h
  have := List.head?_dropWhile_not p l
  rw [h] at this
  exact this

theorem dropWhile_eq_self_of_head (p : Char → Bool) (l : List Char)
    (h : ∀ c, l.head? = some c → p c = false) : l.dropWhile p = l := by
  cases l with
  | nil => rfl
  | cons d rest =>
    rw [List.dropWhile_cons, if_neg]
    rw [h d rfl]
    exact Bool.false_ne_true

theorem wsTrimList_idem (l : List Char) : wsTrimList (wsTrimList l) = wsTrimList l := by
  set u := l.dropWhile isSpaceChar with hu
  set w := u.reverse.dropWhile isSpaceChar with hw
  have hv : wsTrimList l = w.reverse := rfl
  have hpre : w.reverse <+: u := by
    have h1 : w <:+ u.reverse := List.dropWhile_suffix isSpaceChar
    have h2 : w.reverse <+: u.reverse.reverse := List.reverse_prefix.mpr h1
    rwa [List.reverse_reverse] at h2
  have hhead : ∀ c, w.reverse.head? = some c → isSpaceChar c = false := by
    intro c hc
    obtain ⟨t, ht⟩ := hpre
    have hu_head : u.head? = some c := by
      cases hrev : w.reverse with
      | nil => rw [hrev] at hc; simp at hc
      | cons x xs =>
        rw [hrev] at hc
        simp only [List.head?_cons, Option.some.injEq] at hc
        rw [hrev] at ht
        rw [← ht, List.cons_append, List.head?_cons, hc]
    exact head?_dropWhile_false isSpaceChar l c hu_head
  rw [hv]
  unfold wsTrimList
  rw [dropWhile_eq_self_of_head isSpaceChar w.reverse hhead]
  rw [List.reverse_reverse]
  rw [dropWhile_eq_self_of_head isSpaceChar w (head?_dropWhile_false isSpaceChar u.reverse)]

theorem cleanCellStr_fix (s : String) : cleanCellStr (cleanCellStr s) = cleanCellStr s := by
  have hdata : ∀ l : List Char, (String.mk l).toList = l := fun _ => rfl
  set m := s.toList.filter isAllowedChar with hm
  set t := wsTrimList (collapseWs m) with ht
  have hstep : cleanCellStr s = ⟨t⟩ := rfl
  rw [hstep]
  show (⟨wsTrimList (collapseWs (t.filter isAllowedChar))⟩ : String) = ⟨t⟩
  have hfilter : t.filter isAllowedChar = t := by
    rw [List.filter_eq_self]
    intro c hc
    have hct : c ∈ collapseWs m := wsTrimList_subset _ hc
    rcases mem_collapseWsAux false m c hct with h1 | h1
    · rw [h1]; decide
    · exact List.of_mem_filter h1
  have hcollapse : collapseWs t = t :=
    collapseWsAux_fix t (wsNormal_wsTrimList (wsNormal_collapseWsAux false m)) false
      (by intro h; exact absurd h Bool.false_ne_true)
  rw [hfilter]
  show (⟨wsTrimList (collapseWs t)⟩ : String) = ⟨t⟩
  rw [hcollapse, ht, wsTrimList_idem]

/-! ## Theorems for claim C10 (cell cleaning is idempotent) -/

/-- C10: `_clean_cell` is idempotent — cleaning an already-cleaned cell
returns it unchanged — and it returns the empty string on `None` and on
the empty string. -/
theorem cleanCell_idem :
    (∀ c : Option String, cleanCell (some (cleanCell c)) = cleanCell c) ∧
      cleanCell none = "" ∧ cleanCell (some "") = "" := by
  refine ⟨?_, rfl, rfl⟩
  intro c
  match c with
  | none => rfl
  | some s =>
    by_cases hs : s = ""
    · rw [hs]; rfl
    · show cleanCell (some (cleanCell (some s))) = cleanCell (some s)
      rw [show cleanCell (some s) = cleanCellStr s from by simp [cleanCell, hs]]
      by_cases ht : cleanCellStr s = ""
      · simp [cleanCell, ht]
      · simp only [cleanCell, ht, if_false]
        exact cleanCellStr_fix s

/-! ## Theorems for claim C1 (header repair) -/

/-- C1 (counterexample): the claim's transformation is wrong on the
claim's own input shape.  On the 9-column header
`[A, B, C, D, "期末余额", F, "期初余额", H, I]` the repair copies the cell at
index 7 (here `H`) into index 6 — it does not preserve the `"期初余额"`
found at index 6 — so the output is `[A, B, C, "期末余额", "", F, H, "", I]`,
not the claimed `[A, B, C, "期末余额", "", F, "期初余额", "", I]`. -/
theorem repairHeader_claim_false :
    repairHeader ["A", "B", "C", "D", "期末余额", "F", "期初余额", "H", "I"]
        = ["A", "B", "C", "期末余额", "", "F", "H", "", "I"] ∧
      repairHeader ["A", "B", "C", "D", "期末余额", "F", "期初余额", "H", "I"]
        ≠ ["A", "B", "C", "期末余额", "", "F", "期初余额", "", "I"] := by
  constructor
  · rfl
  · decide

/-- C1 (amended): for every 9-column header `[A,B,C,D,E,F,G,H,I]` the
repair moves the cells at indices 4 and 7 one column left (to indices 3
and 6) and blanks the vacated cells, yielding `[A,B,C,E,"",F,H,"",I]` —
so the defective layout with the balance labels at indices 4 and 7,
`[A,B,C,D,"期末余额",F,G,"期初余额",I]`, becomes
`[A,B,C,"期末余额","",F,"期初余额","",I]` — and the repair fires only on the
exact 9-column shape: headers of any other length are unchanged. -/
theorem repairHeader_spec :
    (∀ a b c d e f g h i : String,
        repairHeader [a, b, c, d, e, f, g, h, i] = [a, b, c, e, "", f, h, "", i]) ∧
      ∀ hd : List String, hd.length ≠ 9 → repairHeader hd = hd := by
  constructor
  · intro a b c d e f g h i
    rfl
  · intro hd hlen
    simp [repairHeader, hlen]

/-- C1 (witness): the amended theorem applied at concrete inputs —
the defective balance-sheet layout is repaired as stated and a
2-column header is untouched. -/
theorem repairHeader_spec_witness :
    repairHeader ["项目", "附注", "C", "D", "期末余额", "F", "G", "期初余额", "I"]
        = ["项目", "附注", "C", "期末余额", "", "F", "期初余额", "", "I"] ∧
      repairHeader ["项目", "金额"] = ["项目", "金额"] :=
  ⟨repairHeader_spec.1 "项目" "附注" "C" "D" "期末余额" "F" "G" "期初余额" "I",
   repairHeader_spec.2 ["项目", "金额"] (by decide)⟩

/-! ## Numeric fact harvester —
`BenfordAnalyzer._extract_valid_numbers_with_details`
(src/core/benford_analyzer.py:89-169)

The assembled table is modelled as its column names plus its rows of
optional cell strings (`none` is a pandas `NaN`).  The code iterates
columns by name; column names are assumed distinct (pandas column
access by a duplicated label would not denote a single column). -/

/-- Model of `str.lower()` on one character (ASCII core; the CJK labels are unaffected by case). -/
def lowerChar (c : Char) : Char :=
  if 'A' ≤ c && c ≤ 'Z' then Char.ofNat (c.toNat + 32) else c

/-- Model of `str.lower()`. -/
def lowerStr (s : String) : String :=
  ⟨s.toList.map lowerChar⟩

/-- Whether `l` starts with `pat`. -/
def startsWithL : List Char → List Char → Bool
  | _, [] => true
  | [], _ :: _ => false
  | c :: cs, p :: ps => c = p && startsWithL cs ps

/-- Python's `pat in s` substring test, on character lists. -/
def containsSub : List Char → List Char → Bool
  | s, pat =>
    startsWithL s pat ||
      match s with
      | [] => false
      | _ :: cs => containsSub cs pat

/-- Python's `pat in s` substring test. -/
def strContains (s pat : String) : Bool :=
  containsSub s.toList pat.toList

/-- Model of `str.replace(' ', '').replace('\n', '')` used on column names. -/
def removeSpaceNl (s : String) : String :=
  ⟨s.toList.filter fun c => !(c = ' ' || c = '\n')⟩

/-- Model of `str.replace(',', '')` (thousands separators). -/
def removeCommas (s : String) : String :=
  ⟨s.toList.filter fun c => !(c = ',')⟩

/-- Model of `str.replace('\n', ' ')` used on row labels. -/
def replaceNlSpace (s : String) : String :=
  ⟨s.toList.map fun c => if c = '\n' then ' ' else c⟩

/-- The regex `^-?\d+(\.\d+)?$` (`number_pattern.fullmatch`): optional
minus sign, a non-empty digit run, optionally a dot and a non-empty
digit run.  (`\d` is modelled by its ASCII digits; the program's data
is ASCII numerals.) -/
def matchesNumber (l : List Char) : Bool :=
  let l1 := match l with
    | '-' :: rest => rest
    | _ => l
  let ip := l1.takeWhile Char.isDigit
  let rest := l1.dropWhile Char.isDigit
  !ip.isEmpty &&
    match rest with
    | [] => true
    | '.' :: fs => !fs.isEmpty && fs.all Char.isDigit
    | _ => false

/-- The natural number denoted by a run of decimal digit characters. -/
def natOfDigits (l : List Char) : ℕ :=
  l.foldl (fun n c => 10 * n + (c.toNat - 48)) 0

/-- Model of `float(s)` on a string matched by `number_pattern`, as an exact
rational (the embedding's model of Python floats): the decimal value
`±(intpart.fracpart)`, i.e. `± natOfDigits (intpart ++ fracpart) /
10 ^ |fracpart|`. -/
def parseRat (l : List Char) : ℚ :=
  let sl : ℤ × List Char := match l with
    | '-' :: rest => (-1, rest)
    | _ => (1, l)
  let ip := sl.2.takeWhile Char.isDigit
  let rest := sl.2.dropWhile Char.isDigit
  match rest with
  | '.' :: fs => mkRat (sl.1 * (natOfDigits (ip ++ fs) : ℤ)) ((10 : ℕ) ^ fs.length)
  | _ => mkRat (sl.1 * (natOfDigits ip : ℤ)) 1

/-- Model of `str(int(z))` as a character list. -/
def intStrChars (z : ℤ) : List Char :=
  (if z < 0 then ['-'] else []) ++ Nat.toDigits 10 z.natAbs

/-- Model of `int(s)` on a decimal-digit run with an optional leading minus. -/
def parseIntChars (l : List Char) : ℤ :=
  match l with
  | '-' :: rest => -(natOfDigits rest : ℤ)
  | _ => (natOfDigits l : ℤ)

/-- The inner `is_date_like` of the harvester: an exact integer whose
8-character decimal rendering splits into a year in `[1990, 2030]`, a
month in `[1, 12]` and a day in `[1, 31]`. -/
def isDateLike (q : ℚ) : Bool :=
  if q.den ≠ 1 then false
  else
    let s := intStrChars q.num
    if s.length ≠ 8 then false
    else
      let year := parseIntChars (s.take 4)
      if !(1990 ≤ year && year ≤ 2030) then false
      else
        let month := parseIntChars ((s.drop 4).take 2)
        if !(1 ≤ month && month ≤ 12) then false
        else
          let day := parseIntChars ((s.drop 6).take 2)
          if !(1 ≤ day && day ≤ 31) then false else true

/-- A harvested numeric fact (the dict appended to `records`). -/
structure Fact where
  row_label : String
  column_name : String
  original_text : String
  extracted_value : ℚ
  row_index : ℕ
deriving DecidableEq

/-- The assembled table handed to the analyzer (a pandas `DataFrame`
of string-or-NaN cells with named columns and a 0-based row index). -/
structure Table where
  colNames : List String
  rows : List (List (Option String))
deriving DecidableEq

/-- The cells of column `j`, in row order (`df[col]`). -/
def Table.col (t : Table) (j : ℕ) : List (Option String) :=
  t.rows.map fun r => r.getD j none

/-- The column-name test of the label-column search: the lowered name
contains `"项目"` or `"item"`. -/
def isLabelName (nm : String) : Bool :=
  strContains (lowerStr nm) "项目" || strContains (lowerStr nm) "item"

/-- The label-column choice: the first column whose name contains an
item marker; if none, the first column (when any column exists). -/
def findLabelIdx (names : List String) : Option ℕ :=
  match names.findIdx? isLabelName with
  | some i => some i
  | none => if names.isEmpty then none else some 0

/-- The ignored-column keywords (`ignore_keywords`). -/
def ignoreKeywords : List String :=
  ["附注", "note", "注释", "行次"]

/-- The row label recorded with a fact: the label column's cell in the
same row, stripped with newlines replaced, or `"N/A"` when there is no
label column or the cell is NaN. -/
def rowLabelAt (t : Table) (labelIdx : Option ℕ) (idx : ℕ) : String :=
  match labelIdx with
  | none => "N/A"
  | some li =>
    match (t.rows.getD idx []).getD li none with
    | none => "N/A"
    | some lv => replaceNlSpace (stripStr lv)

/-- The per-cell body of the harvesting loop: strip and de-comma the
cell text, require the plain-numeral shape, parse, and apply the
exclusion rules (exact zero, calendar-year integer in `[1990, 2030]`,
date-shaped integer); a surviving value is recorded by absolute
value. -/
def processCell (rowLabel colName : String) (idx : ℕ) (item : Option String) :
    Option (ℚ × Fact) :=
  match item with
  | none => none
  | some raw =>
    let s := removeCommas (stripStr raw)
    if matchesNumber s.toList then
      let val := parseRat s.toList
      if val = 0 then none
      else if val.den = 1 ∧ 1990 ≤ val ∧ val ≤ 2030 then none
      else if isDateLike val then none
      else
        some (|val|,
          { row_label := rowLabel
            column_name := colName
            original_text := raw
            extracted_value := |val|
            row_index := idx })
    else none

/-- The three per-column `continue` conditions of the harvesting loop,
checked in the code's order: cleaned column name empty, the column is
the label column, the cleaned name contains an ignore keyword. -/
def skipColumn (labelName : Option String) (nm : String) : Bool :=
  let colClean := removeSpaceNl (lowerStr nm)
  colClean = "" || labelName = some nm ||
    ignoreKeywords.any fun kw => strContains colClean kw

/-- The harvesting loop of
`BenfordAnalyzer._extract_valid_numbers_with_details`: harvested
`(value, record)` pairs, column by column (skipping the label column,
columns whose cleaned name is empty, and note/row-index columns), row
by row within a column, in appending order. -/
def harvestPairs (t : Table) : List (ℚ × Fact) :=
  let labelIdx := findLabelIdx t.colNames
  let labelName : Option String := labelIdx.map fun i => t.colNames.getD i ""
  t.colNames.enum.flatMap fun ji =>
    if skipColumn labelName ji.2 then []
    else
      (t.col ji.1).enum.filterMap fun ic =>
        processCell (rowLabelAt t labelIdx ic.1) ji.2 ic.1 ic.2

/-- Model of `BenfordAnalyzer._extract_valid_numbers_with_details`: the pair
`(values, records)` (the loop appends to both in lockstep). -/
def extractValidNumbers (t : Table) : List ℚ × List Fact :=
  ((harvestPairs t).map Prod.fst, (harvestPairs t).map Prod.snd)

/-! ## Theorems for claim C4 (harvester exclusion rules) -/

/-- C4: on a two-column table whose first column is the label column
`"项目"`, a data cell `"2021"` yields no facts (calendar-year integer in
`[1990, 2030]`), a data cell `"20230615"` yields no facts (a valid
`YYYYMMDD` date shape), and a data cell `"20231345"` (month 13, day 45
out of range, hence not date-shaped) yields exactly one fact with value
`20231345`. -/
theorem harvester_exclusions :
    extractValidNumbers ⟨["项目", "金额"], [[some "货币资金", some "2021"]]⟩ = ([], []) ∧
      extractValidNumbers ⟨["项目", "金额"], [[some "货币资金", some "20230615"]]⟩
        = ([], []) ∧
      extractValidNumbers ⟨["项目", "金额"], [[some "货币资金", some "20231345"]]⟩
        = ([20231345],
            [{ row_label := "货币资金", column_name := "金额",
               original_text := "20231345", extracted_value := 20231345,
               row_index := 0 }]) := by
  refine ⟨?_, ?_, ?_⟩ <;> decide

/-! ## Theorems for claim C9 (strict positivity of harvested facts) -/

theorem processCell_pos (rowLabel colName : String) (idx : ℕ) (item : Option String)
    (p : ℚ × Fact) (h : processCell rowLabel colName idx item = some p) :
    0 < p.1 ∧ p.2.extracted_value = p.1 := by
  match item with
  | none => simp [processCell] at h
  | some raw =>
    simp only [processCell] at h
    split at h
    · split at h
      · exact absurd h (by simp)
      · split at h
        · exact absurd h (by simp)
        · split at h
          · exact absurd h (by simp)
          · rw [Option.some.injEq] at h
            rw [← h]
            refine ⟨abs_pos.mpr ?_, rfl⟩
            next hz _ _ => exact hz
    · exact absurd h (by simp)

/-- C9: every numeric fact produced by the harvester has a strictly
positive value — exact zeros are skipped and the absolute value of the
parsed number is recorded — so no fact with value `0` (or a negative
value) is ever emitted, in either the values list or the records
list. -/
theorem extractValidNumbers_pos (t : Table) :
    (∀ v ∈ (extractValidNumbers t).1, 0 < v) ∧
      ∀ f ∈ (extractValidNumbers t).2, 0 < f.extracted_value := by
  have hpairs : ∀ p ∈ harvestPairs t, 0 < p.1 ∧ p.2.extracted_value = p.1 := by
    intro p hp
    unfold harvestPairs at hp
    rw [List.mem_flatMap] at hp
    obtain ⟨ji, _, hmem⟩ := hp
    split at hmem
    · simp at hmem
    · rw [List.mem_filterMap] at hmem
      obtain ⟨ic, _, hsome⟩ := hmem
      exact processCell_pos _ _ _ _ p hsome
  constructor
  · intro v hv
    simp only [extractValidNumbers, List.mem_map] at hv
    obtain ⟨p, hp, rfl⟩ := hv
    exact (hpairs p hp).1
  · intro f hf
    simp only [extractValidNumbers, List.mem_map] at hf
    obtain ⟨p, hp, rfl⟩ := hf
    have h := hpairs p hp
    rw [h.2]
    exact h.1

/-- C9 (witness): the positivity theorem applied to the one fact
harvested from the `"20231345"` table. -/
theorem extractValidNumbers_pos_witness : 0 < (20231345 : ℚ) :=
  (extractValidNumbers_pos ⟨["项目", "金额"], [[some "货币资金", some "20231345"]]⟩).1
    20231345 (by decide)

/-! ## Positional-digit extraction —
`BenfordAnalyzer._get_digit_at_position`
(src/core/benford_analyzer.py:172-182)

The code computes `log_val = math.log(num, base)`, `normalized =
base ** (log_val - floor(log_val))` (i.e. `num / base^e` with
`e = ⌊log_base num⌋`), `shifted = normalized * base**(position-1)`, and
`digit = int(shifted) % base`.  On exact rationals, `e` is computed
exactly by an integer logarithm, and `int(shifted)` (truncation of a
positive value, hence a floor) is computed by integer division:
`⌊num · base^(position-1-e)⌋`. -/

/-- Fueled integer logarithm: with enough fuel, `⌊log_b n⌋` for
`b ≥ 2`, `n ≥ 1` (the number of iterations is at most `log_b n + 1`,
so fuel `n` always suffices). -/
def natLogAux (b : ℕ) : ℕ → ℕ → ℕ
  | 0, _ => 0
  | fuel + 1, n => if 2 ≤ b && b ≤ n then natLogAux b fuel (n / b) + 1 else 0

/-- The value `⌊log_b n⌋` for `b ≥ 2`, `n ≥ 1` (and `0` in degenerate cases). -/
def natLogF (b n : ℕ) : ℕ :=
  natLogAux b n n

/-- Fueled ceiling logarithm: with enough fuel, the least `m` with
`n ≤ b^m`, for `b ≥ 2`. -/
def natClogAux (b : ℕ) : ℕ → ℕ → ℕ
  | 0, _ => 0
  | fuel + 1, n =>
    if 2 ≤ b && 2 ≤ n then natClogAux b fuel ((n + b - 1) / b) + 1 else 0

/-- The value `⌈log_b n⌉` for `b ≥ 2`, `n ≥ 1` (and `0` in degenerate cases). -/
def natClogF (b n : ℕ) : ℕ :=
  natClogAux b n n

/-- Model of `math.floor(math.log(q, b))` for a positive rational `q`: the
unique `e` with `b^e ≤ q < b^(e+1)`.  For `q ≥ 1` this is
`⌊log_b ⌊q⌋⌋`; for `0 < q < 1` it is `-⌈log_b ⌈1/q⌉⌉`, with
`⌈1/q⌉ = ⌈q.den / q.num⌉` computed by integer division. -/
def ratILog (b : ℕ) (q : ℚ) : ℤ :=
  if 1 ≤ q then (natLogF b ⌊q⌋.toNat : ℤ)
  else -(natClogF b ((q.den + q.num.toNat - 1) / q.num.toNat) : ℤ)

/-- Model of `BenfordAnalyzer._get_digit_at_position`.  `int(shifted)` of the
positive value `shifted = num · base^(position-1-e)` is its floor,
computed here on the rational's numerator and denominator by integer
division; `%` on nonnegative values agrees with Python's `%`.  (The
`except` clause of the code is unreachable under exact arithmetic on a
positive `num`.) -/
def getDigitAtPosition (num : ℚ) (base : ℕ) (position : ℤ) : Option ℕ :=
  if num ≤ 0 then none
  else
    let e := ratILog base num
    let k := position - 1 - e
    let shiftedFloor : ℤ :=
      if 0 ≤ k then num.num * (base : ℤ) ^ k.toNat / (num.den : ℤ)
      else num.num / ((num.den : ℤ) * (base : ℤ) ^ (-k).toNat)
    let digit := (shiftedFloor % (base : ℤ)).toNat
    if position = 1 ∧ digit = 0 then none else some digit

/-! ## Theoretical distribution —
`BenfordAnalyzer._get_theoretical_distribution`
(src/core/benford_analyzer.py:184-199) -/

/-- The digit range iterated by `_get_theoretical_distribution`:
`range(1, base)` when `position == 1`, `range(0, base)` otherwise. -/
def theoreticalDigits (base : ℕ) (position : ℤ) : List ℕ :=
  if position = 1 then List.range' 1 (base - 1) else List.range base

/-- The numeric quantities of the program that are genuinely
transcendental and therefore supplied abstractly: the Benford digit
probability (`math.log`-based formulas at lines 192-195), scipy's
`chi2.sf` upper-tail probability and `chi2.ppf(0.95, df)` critical
value, and Python's `"%.4f"` float formatting used in the high-risk
verdict text.  No verified property depends on their values. -/
structure NumericOracles where
  benfordProb : ℕ → ℤ → ℕ → ℚ
  chi2sf : ℚ → ℕ → ℚ
  chi2ppf95 : ℕ → ℚ
  fmt4 : ℚ → String

/-- Model of `_get_theoretical_distribution` as an association list in insertion
order: each digit of the range mapped to its probability.  (The
memoization cache is semantically transparent for a pure function and
is not modelled.) -/
def theoreticalDist (O : NumericOracles) (base : ℕ) (position : ℤ) :
    List (ℕ × ℚ) :=
  (theoreticalDigits base position).map fun d => (d, O.benfordProb base position d)

/-- Model of `BenfordAnalyzer._format_digit` (the `base` argument of the code is
unused by its body). -/
def formatDigit (digit : ℕ) : String :=
  if digit < 10 then toString digit
  else String.singleton (Char.ofNat ('A'.toNat + digit - 10))

/-! ## The counting loop of `analyze` (src/core/benford_analyzer.py:37-49) -/

/-- One iteration of the counting loop: an extracted digit that is a
key of the counts dict (`digit in counts`, i.e. lies in the
theoretical digit range) increments its count and the valid-sample
counter; anything else is skipped. -/
def tallyStep (keys : List ℕ) (st : (ℕ → ℕ) × ℕ) (d? : Option ℕ) : (ℕ → ℕ) × ℕ :=
  match d? with
  | none => st
  | some d =>
    if d ∈ keys then (Function.update st.1 d (st.1 d + 1), st.2 + 1) else st

/-- The counting loop over the extracted digits of all harvested
numbers, starting from the all-zero counts dict. -/
def tallyAll (keys : List ℕ) (digits : List (Option ℕ)) : (ℕ → ℕ) × ℕ :=
  digits.foldl (tallyStep keys) (fun _ => 0, 0)

/-- A record enriched with its `extracted_digit` (the records collected
in `enriched_records`). -/
structure EnrichedFact where
  fact : Fact
  extracted_digit : String
deriving DecidableEq

/-- The `enriched_records` accumulation of the counting loop: each
harvested record whose number yields a digit inside the key range,
annotated with the formatted digit. -/
def enrichedRecords (keys : List ℕ) (base : ℕ) (position : ℤ)
    (numbers : List ℚ) (records : List Fact) : List EnrichedFact :=
  (numbers.zip records).filterMap fun nr =>
    match getDigitAtPosition nr.1 base position with
    | some d => if d ∈ keys then some ⟨nr.2, formatDigit d⟩ else none
    | none => none

/-! ## Chi-square computation (src/core/benford_analyzer.py:56-61) -/

/-- The chi-square loop: for each digit of the theoretical
distribution, with `expected = prob * sample_size`, the term
`(observed - expected)² / expected` is added only when
`expected > 0`. -/
def chiSquareOf (theo : List (ℕ × ℚ)) (counts : ℕ → ℕ) (n : ℕ) : ℚ :=
  theo.foldl
    (fun acc dp =>
      let exp := dp.2 * (n : ℚ)
      if 0 < exp then acc + ((counts dp.1 : ℚ) - exp) ^ 2 / exp else acc)
    0

/-! ## Verdict synthesis — `BenfordAnalyzer._generate_dynamic_conclusion`
(src/core/benford_analyzer.py:205-220) -/

def lowPowerWarning : String :=
  "⚠️ [警告] 样本量过少 (<50)，卡方检验统计效力不足，结果仅供参考。\n"

def riskHigh : String := "高风险 (严重偏离)"

def riskMedium : String := "中等风险 (显著偏离)"

def riskLow : String := "低风险 (符合预期)"

def descHigh (fmt4 : ℚ → String) (p : ℚ) : String :=
  "数据分布与本福特理论分布存在极显著差异 (P < 0.01)。这意味着该差异由随机因素导致的可能性极低 ("
    ++ fmt4 p ++ ")，高度怀疑数据存在异常或被人为干预，建议进行深入审计。"

def descMedium : String :=
  "数据分布与本福特理论分布存在显著差异 (0.01 ≤ P < 0.05)。虽然不如高风险极端，但仍表明数据可能偏离自然规律，建议核查数据质量或特定业务逻辑。"

def descLow : String :=
  "数据分布与本福特理论分布没有显著差异 (P > 0.05)。未能拒绝原假设，数据表现符合自然规律，未发现明显异常。"

/-- The f-string template of the returned conclusion:
`{warning}\n分析体系：{system}\n结论等级：{risk}\n{desc}`. -/
def conclusionTemplate (warning system risk desc : String) : String :=
  warning ++ "\n分析体系：" ++ system ++ "\n结论等级：" ++ risk ++ "\n" ++ desc

/-- Model of `_generate_dynamic_conclusion` (its `chi2` argument is
unused by the body, as in the code). -/
def generateDynamicConclusion (fmt4 : ℚ → String) (_chi2 p_value : ℚ) (n : ℕ)
    (system : String) : String :=
  let warning := if n < 50 then lowPowerWarning else ""
  let rd : String × String :=
    if p_value < 1 / 100 then (riskHigh, descHigh fmt4 p_value)
    else if p_value < 5 / 100 then (riskMedium, descMedium)
    else (riskLow, descLow)
  conclusionTemplate warning system rd.1 rd.2

/-! ## `BenfordAnalyzer.analyze` (src/core/benford_analyzer.py:12-87) -/

/-- The `base_map` of `analyze`. -/
def baseMap (numeral_system : String) : Option ℕ :=
  if numeral_system = "decimal" then some 10
  else if numeral_system = "octal" then some 8
  else if numeral_system = "hexadecimal" then some 16
  else none

def configErrorMsg : String := "不支持的进制体系"

def insufficientSampleMsg : String := "样本数量过少 (<10)，无法进行有效分析。"

def noValidDigitsMsg : String := "未提取到有效位数的数字"

/-- The metadata dict of `analyze`. -/
structure Metadata where
  base : ℕ
  digit_position : ℤ
  sample_size : ℕ
  degrees_of_freedom : ℕ
  p_value : ℚ
  critical_value_95 : ℚ
  theoretical_distribution : List (String × ℚ)
deriving DecidableEq

/-- The 6-tuple returned by a successful `analyze` call. -/
structure AnalyzeOk where
  actual_dist : List (String × ℚ)
  chi_square : ℚ
  counts : List (String × ℕ)
  conclusion : String
  metadata : Metadata
  enriched : List EnrichedFact
deriving DecidableEq

/-- The `empty_metadata` dict (lines 26-30). -/
def emptyMetadata (base : ℕ) (digit_position : ℤ) : Metadata :=
  { base := base
    digit_position := digit_position
    sample_size := 0
    degrees_of_freedom := 0
    p_value := 1
    critical_value_95 := 0
    theoretical_distribution := [] }

/-- The empty result returned by the two sample gates. -/
def emptyResult (base : ℕ) (digit_position : ℤ) (conclusion : String) : AnalyzeOk :=
  { actual_dist := []
    chi_square := 0
    counts := []
    conclusion := conclusion
    metadata := emptyMetadata base digit_position
    enriched := [] }

/-- Model of `BenfordAnalyzer.analyze`: validate the numeral system (a `raise`
is `.error`), harvest, gate on fewer than 10 harvested numbers, count
digits over the theoretical key range, gate on zero valid digits,
then compute the chi-square statistic, degrees of freedom
(`len(theoretical_dist) - 1`), oracle-supplied p-value and critical
value, format the dicts by digit symbol, and synthesize the
conclusion. -/
def analyze (O : NumericOracles) (t : Table) (digit_position : ℤ)
    (numeral_system : String) : Except String AnalyzeOk :=
  match baseMap numeral_system with
  | none => .error configErrorMsg
  | some base =>
    let numbers := (extractValidNumbers t).1
    let records := (extractValidNumbers t).2
    if numbers.length < 10 then
      .ok (emptyResult base digit_position insufficientSampleMsg)
    else
      let theo := theoreticalDist O base digit_position
      let keys := theoreticalDigits base digit_position
      let digits := numbers.map fun num => getDigitAtPosition num base digit_position
      let tally := tallyAll keys digits
      let counts := tally.1
      let n := tally.2
      if n = 0 then .ok (emptyResult base digit_position noValidDigitsMsg)
      else
        let chi := chiSquareOf theo counts n
        let dof := theo.length - 1
        let p := O.chi2sf chi dof
        .ok
          { actual_dist := keys.map fun d => (formatDigit d, (counts d : ℚ) / (n : ℚ))
            chi_square := chi
            counts := keys.map fun d => (formatDigit d, counts d)
            conclusion := generateDynamicConclusion O.fmt4 chi p n numeral_system
            metadata :=
              { base := base
                digit_position := digit_position
                sample_size := n
                degrees_of_freedom := dof
                p_value := p
                critical_value_95 := O.chi2ppf95 dof
                theoretical_distribution := theo.map fun dp => (formatDigit dp.1, dp.2) }
            enriched := enrichedRecords keys base digit_position numbers records }

/-- A fixed all-zero oracle instance used to state closed concrete
facts (the verified properties do not depend on the oracle values). -/
def zeroOracles : NumericOracles :=
  { benfordProb := fun _ _ _ => 0
    chi2sf := fun _ _ => 0
    chi2ppf95 := fun _ => 0
    fmt4 := fun _ => "" }

/-- The payload of an `.ok` result (an arbitrary empty default on
`.error`, used only to name concrete `.ok` payloads). -/
def resOk (x : Except String AnalyzeOk) : AnalyzeOk :=
  match x with
  | .ok r => r
  | .error _ => emptyResult 0 0 ""

/-! ## Theorems for claim C5 (chi-square degeneracy safety) -/

/-- C5: the chi-square loop of `analyze` never forms a term with a
zero (or nonpositive) expected count: the computed statistic equals
the sum of `(observed[d] - expected[d])² / expected[d]` over exactly
the digits with `expected[d] = theoretical_distribution[d] ×
sample_size > 0`; every other digit's term is excluded from the
sum (so no division by a zero expected count ever contributes). -/
theorem chiSquare_filtered_sum (theo : List (ℕ × ℚ)) (counts : ℕ → ℕ) (n : ℕ) :
    chiSquareOf theo counts n =
      ((theo.filter fun dp => 0 < dp.2 * (n : ℚ)).map
        fun dp => ((counts dp.1 : ℚ) - dp.2 * (n : ℚ)) ^ 2 / (dp.2 * (n : ℚ))).sum := by
  have haux : ∀ (l : List (ℕ × ℚ)) (acc : ℚ),
      l.foldl
          (fun acc dp =>
            let exp := dp.2 * (n : ℚ)
            if 0 < exp then acc + ((counts dp.1 : ℚ) - exp) ^ 2 / exp else acc)
          acc
        = acc + ((l.filter fun dp => 0 < dp.2 * (n : ℚ)).map
            fun dp => ((counts dp.1 : ℚ) - dp.2 * (n : ℚ)) ^ 2 / (dp.2 * (n : ℚ))).sum := by
    intro l
    induction l with
    | nil => intro acc; simp
    | cons hd tl ih =>
      intro acc
      by_cases h : 0 < hd.2 * (n : ℚ)
      · have hcond : (decide (0 < hd.2 * (n : ℚ))) = true := decide_eq_true h
        simp only [List.foldl_cons, List.filter_cons, hcond, if_true, h, decide_True,
          List.map_cons, List.sum_cons]
        rw [ih]
        ring
      · have hcond : (decide (0 < hd.2 * (n : ℚ))) = false := decide_eq_false h
        simp only [List.foldl_cons, List.filter_cons, hcond, if_false, h, decide_False]
        exact ih acc
  rw [chiSquareOf, haux, zero_add]

/-! ## Theorems for claim C6 (verdict synthesis) -/

/-- C6: the verdict tier is selected by the ordered thresholds —
`p < 0.01` gives the high-risk verdict, `0.01 ≤ p < 0.05` the
medium-risk verdict, and `0.05 ≤ p` the low-risk verdict — and in
every tier the conclusion text is the low-power warning (present
exactly when `sample_size < 50`, empty otherwise) prepended to the
tier's verdict body. -/
theorem verdict_synthesis (fmt4 : ℚ → String) (chi2 p : ℚ) (n : ℕ) (system : String) :
    (p < 1 / 100 →
      generateDynamicConclusion fmt4 chi2 p n system =
        (if n < 50 then lowPowerWarning else "") ++ "\n分析体系：" ++ system
          ++ "\n结论等级：" ++ riskHigh ++ "\n" ++ descHigh fmt4 p) ∧
    (1 / 100 ≤ p → p < 5 / 100 →
      generateDynamicConclusion fmt4 chi2 p n system =
        (if n < 50 then lowPowerWarning else "") ++ "\n分析体系：" ++ system
          ++ "\n结论等级：" ++ riskMedium ++ "\n" ++ descMedium) ∧
    (5 / 100 ≤ p →
      generateDynamicConclusion fmt4 chi2 p n system =
        (if n < 50 then lowPowerWarning else "") ++ "\n分析体系：" ++ system
          ++ "\n结论等级：" ++ riskLow ++ "\n" ++ descLow) := by
  refine ⟨?_, ?_, ?_⟩
  · intro h
    dsimp only [generateDynamicConclusion, conclusionTemplate]
    rw [if_pos h]
  · intro h1 h2
    dsimp only [generateDynamicConclusion, conclusionTemplate]
    rw [if_neg (not_lt.mpr h1), if_pos h2]
  · intro h
    have h1 : ¬p < 1 / 100 := not_lt.mpr (le_trans (by norm_num) h)
    have h2 : ¬p < 5 / 100 := not_lt.mpr h
    dsimp only [generateDynamicConclusion, conclusionTemplate]
    rw [if_neg h1, if_neg h2]

/-- C6 (witness): the verdict theorem at `p = 0.001 < 0.01` and
`n = 20 < 50`: high-risk verdict with the low-power warning
prepended. -/
theorem verdict_synthesis_witness :
    generateDynamicConclusion (fun _ => "0.0010") 0 (mkRat 1 1000) 20 "decimal" =
      (if (20 : ℕ) < 50 then lowPowerWarning else "") ++ "\n分析体系：" ++ "decimal"
        ++ "\n结论等级：" ++ riskHigh ++ "\n" ++ descHigh (fun _ => "0.0010") (mkRat 1 1000) :=
  (verdict_synthesis (fun _ => "0.0010") 0 (mkRat 1 1000) 20 "decimal").1
    (by with_unfolding_all decide)

/-! ## Theorems for claim C8 (theoretical-distribution domain and dof) -/

/-- C8: for every base `b ≥ 2` the theoretical distribution for digit
position 1 is defined exactly on the digits `1 .. b-1` (zero
excluded), and for every other position exactly on `0 .. b-1`; the
degrees of freedom derived from it (`len(theoretical_dist) - 1`, the
value reported in the metadata) are therefore `b - 2` for position 1
and `b - 1` otherwise. -/
theorem theoretical_domain_dof (O : NumericOracles) (base : ℕ) (position : ℤ)
    (hb : 2 ≤ base) :
    (position = 1 →
      (∀ d, d ∈ (theoreticalDist O base position).map Prod.fst ↔ 1 ≤ d ∧ d < base) ∧
        (theoreticalDist O base position).length - 1 = base - 2) ∧
    (position ≠ 1 →
      (∀ d, d ∈ (theoreticalDist O base position).map Prod.fst ↔ d < base) ∧
        (theoreticalDist O base position).length - 1 = base - 1) := by
  constructor
  · intro hpos
    constructor
    · intro d
      simp only [theoreticalDist, theoreticalDigits, hpos, if_true, List.map_map]
      rw [show (List.map ((fun dp => dp.1) ∘ fun d => ((d : ℕ), O.benfordProb base 1 d))
              (List.range' 1 (base - 1)))
            = List.map (fun d => d) (List.range' 1 (base - 1)) from rfl]
      rw [List.map_id']
      rw [List.mem_range'_1]
      omega
    · simp only [theoreticalDist, theoreticalDigits, hpos, if_true, List.length_map,
        List.length_range']
      omega
  · intro hpos
    constructor
    · intro d
      simp only [theoreticalDist, theoreticalDigits, hpos, if_false, List.map_map]
      rw [show (List.map ((fun dp => dp.1) ∘ fun d => ((d : ℕ), O.benfordProb base position d))
              (List.range base))
            = List.map (fun d => d) (List.range base) from rfl]
      rw [List.map_id']
      exact List.mem_range
    · simp only [theoreticalDist, theoreticalDigits, hpos, if_false, List.length_map,
        List.length_range]

/-- C8 (witness): the theorem applied at base 10: 8 degrees of freedom
for the leading digit (domain `1..9`, which contains 9 and not 0) and
9 for the second digit (domain `0..9`). -/
theorem theoretical_domain_dof_witness :
    ((theoreticalDist zeroOracles 10 1).length - 1 = 8 ∧
        (9 ∈ (theoreticalDist zeroOracles 10 1).map Prod.fst ↔ 1 ≤ 9 ∧ 9 < 10)) ∧
      ((theoreticalDist zeroOracles 10 2).length - 1 = 9 ∧
        (0 ∈ (theoreticalDist zeroOracles 10 2).map Prod.fst ↔ 0 < 10)) :=
  ⟨⟨((theoretical_domain_dof zeroOracles 10 1 (by norm_num)).1 rfl).2,
    ((theoretical_domain_dof zeroOracles 10 1 (by norm_num)).1 rfl).1 9⟩,
   ⟨((theoretical_domain_dof zeroOracles 10 2 (by norm_num)).2 (by decide)).2,
    ((theoretical_domain_dof zeroOracles 10 2 (by norm_num)).2 (by decide)).1 0⟩⟩

/-! ## Theorems for claim C2 (configuration validation) -/

/-- C2 (counterexample): `digit_position = 0` is not a positive
integer, yet `analyze` performs no validation of it and returns a
normal (non-error) result instead of failing with a configuration
error. -/
theorem config_validation_counterexample :
    (analyze zeroOracles ⟨[], []⟩ 0 "decimal").isOk = true := by
  decide

/-- C2 (amended): within the analyzer, only the numeral system is
validated — a numeral system outside {decimal, octal, hexadecimal}
makes `analyze` raise the configuration error `"不支持的进制体系"` at its
entry (before any harvesting), for every table and digit position; a
supported numeral system never raises, whatever the digit position
(in particular non-positive digit positions are not rejected).  (At
the application level the PDF is parsed *before* `analyze` runs, so
the failure is fast only relative to the analyzer, not to document
parsing.) -/
theorem config_validation (O : NumericOracles) (t : Table) (digit_position : ℤ)
    (numeral_system : String) :
    (numeral_system ∉ (["decimal", "octal", "hexadecimal"] : List String) →
      analyze O t digit_position numeral_system = .error configErrorMsg) ∧
    (numeral_system ∈ (["decimal", "octal", "hexadecimal"] : List String) →
      (analyze O t digit_position numeral_system).isOk = true) := by
  constructor
  · intro h
    simp only [List.mem_cons, List.not_mem_nil, or_false, not_or] at h
    obtain ⟨h1, h2, h3⟩ := h
    have hb : baseMap numeral_system = none := by
      simp [baseMap, h1, h2, h3]
    simp [analyze, hb]
  · intro h
    have hb : ∃ b, baseMap numeral_system = some b := by
      simp only [List.mem_cons, List.not_mem_nil, or_false] at h
      rcases h with rfl | rfl | rfl
      · exact ⟨10, rfl⟩
      · exact ⟨8, rfl⟩
      · exact ⟨16, rfl⟩
    obtain ⟨b, hb⟩ := hb
    simp only [analyze, hb]
    split
    · rfl
    · split <;> rfl

/-- C2 (witness): the amended theorem applied at an unsupported system
(`"binary"`) and at a supported one (`"decimal"`). -/
theorem config_validation_witness :
    analyze zeroOracles ⟨[], []⟩ 1 "binary" = .error configErrorMsg ∧
      (analyze zeroOracles ⟨[], []⟩ 1 "decimal").isOk = true :=
  ⟨(config_validation zeroOracles ⟨[], []⟩ 1 "binary").1 (by decide),
   (config_validation zeroOracles ⟨[], []⟩ 1 "decimal").2 (by decide)⟩

/-! ## Theorems for claim C3 (sample-size gate) -/

/-- C3 (counterexample): on a table with fewer than 10 harvested facts
but an unsupported numeral system, `analyze` raises the configuration
error instead of returning the insufficient-sample result — so the
gate does not hold "regardless of the other inputs". -/
theorem sample_size_gate_counterexample :
    (extractValidNumbers ⟨[], []⟩).1.length < 10 ∧
      analyze zeroOracles ⟨[], []⟩ 1 "binary" = .error configErrorMsg := by
  exact ⟨by decide, rfl⟩

/-- C3 (amended): for every table from which fewer than 10 numeric
facts are harvested and every digit position, provided the numeral
system is supported (mapped to a base `b` by `base_map`), `analyze`
returns — does not raise — the empty result: chi-square `0.0`, empty
observed-frequency and observed-count maps, empty annotated-fact list,
the conclusion `"样本数量过少 (<10)，无法进行有效分析。"`, and the empty metadata
with sample size 0.  (With an unsupported numeral system the
configuration error is raised before the gate.) -/
theorem sample_size_gate (O : NumericOracles) (t : Table) (digit_position : ℤ)
    (numeral_system : String) (b : ℕ) (hb : baseMap numeral_system = some b)
    (hlen : (extractValidNumbers t).1.length < 10) :
    analyze O t digit_position numeral_system =
      .ok (emptyResult b digit_position insufficientSampleMsg) := by
  simp [analyze, hb, hlen]

/-- C3 (witness): the gate theorem applied to the empty table with the
octal system and digit position 7. -/
theorem sample_size_gate_witness :
    analyze zeroOracles ⟨[], []⟩ 7 "octal" =
      .ok (emptyResult 8 7 insufficientSampleMsg) :=
  sample_size_gate zeroOracles ⟨[], []⟩ 7 "octal" 8 (by decide) (by decide)

/-! ## Theorems for claim C7 (count-total invariant) -/

theorem map_sum_update : ∀ (keys : List ℕ), keys.Nodup → ∀ d ∈ keys, ∀ f : ℕ → ℕ,
    (keys.map (Function.update f d (f d + 1))).sum = (keys.map f).sum + 1 := by
  intro keys
  induction keys with
  | nil => intro _ d hd; simp at hd
  | cons a tl ih =>
    intro hnd d hd f
    rcases List.mem_cons.mp hd with rfl | hmem
    · have hnotin : d ∉ tl := (List.nodup_cons.mp hnd).1
      rw [List.map_cons, List.map_cons, List.sum_cons, List.sum_cons,
        Function.update_same]
      rw [List.map_congr_left
        fun x hx => Function.update_noteq (fun he => hnotin (by rwa [he] at hx)) (f d + 1) f]
      have heta : List.map (fun x => f x) tl = List.map f tl := rfl
      rw [heta]
      omega
    · have hnotin : a ∉ tl := (List.nodup_cons.mp hnd).1
      have hane : a ≠ d := fun he => hnotin (by rwa [← he] at hmem)
      rw [List.map_cons, List.map_cons, List.sum_cons, List.sum_cons,
        Function.update_noteq hane]
      rw [ih (List.nodup_cons.mp hnd).2 d hmem f]
      omega

theorem tallyStep_sum (keys : List ℕ) (hnd : keys.Nodup) (st : (ℕ → ℕ) × ℕ)
    (dOpt : Option ℕ) :
    (keys.map (tallyStep keys st dOpt).1).sum + st.2
      = (keys.map st.1).sum + (tallyStep keys st dOpt).2 := by
  match dOpt with
  | none => rfl
  | some d =>
    by_cases hmem : d ∈ keys
    · simp only [tallyStep, hmem, if_true]
      rw [map_sum_update keys hnd d hmem st.1]
      omega
    · simp only [tallyStep, hmem, if_false]

theorem tally_sum (keys : List ℕ) (hnd : keys.Nodup) :
    ∀ (digits : List (Option ℕ)) (st : (ℕ → ℕ) × ℕ),
      (keys.map (digits.foldl (tallyStep keys) st).1).sum + st.2
        = (keys.map st.1).sum + (digits.foldl (tallyStep keys) st).2 := by
  intro digits
  induction digits with
  | nil => intro st; rfl
  | cons dOpt tl ih =>
    intro st
    rw [List.foldl_cons]
    have hstep := tallyStep_sum keys hnd st dOpt
    have hih := ih (tallyStep keys st dOpt)
    omega

theorem tallyAll_sum (keys : List ℕ) (hnd : keys.Nodup) (digits : List (Option ℕ)) :
    (keys.map (tallyAll keys digits).1).sum = (tallyAll keys digits).2 := by
  have h := tally_sum keys hnd digits (fun _ => 0, 0)
  dsimp only at h
  have hzero : (keys.map fun _ => (0 : ℕ)).sum = 0 := by
    induction keys with
    | nil => rfl
    | cons a tl ih => simp [ih]
  rw [tallyAll]
  omega

theorem theoreticalDigits_nodup (base : ℕ) (position : ℤ) :
    (theoreticalDigits base position).Nodup := by
  unfold theoreticalDigits
  split
  · exact List.nodup_range' _ _
  · exact List.nodup_range base

theorem sum_map_div (l : List ℕ) (g : ℕ → ℚ) (c : ℚ) :
    (l.map fun d => g d / c).sum = (l.map g).sum / c := by
  induction l with
  | nil => simp
  | cons a tl ih => simp [ih, add_div]

/-- A result that `base_map` accepts is always `.ok` (both gates and
the main path return; only the numeral-system check raises). -/
theorem analyze_isOk_of_base (O : NumericOracles) (t : Table) (digit_position : ℤ)
    (numeral_system : String) (b : ℕ) (hb : baseMap numeral_system = some b) :
    (analyze O t digit_position numeral_system).isOk = true := by
  simp only [analyze, hb]
  split
  · rfl
  · split <;> rfl

/-- An `.ok` value equals `.ok` of its payload. -/
theorem eq_ok_resOk (x : Except String AnalyzeOk) (h : x.isOk = true) :
    x = .ok (resOk x) := by
  match x with
  | .ok r => rfl
  | .error e => exact Bool.noConfusion h

/-- C7: in every non-empty analysis result (one whose reported sample
size is nonzero, i.e. that passed both sample gates), the observed
counts over all digit keys sum to the reported `sample_size`, and the
observed frequencies (count / sample_size each) sum to exactly 1. -/
theorem count_total_invariant (O : NumericOracles) (t : Table) (digit_position : ℤ)
    (numeral_system : String) (r : AnalyzeOk)
    (hok : analyze O t digit_position numeral_system = .ok r)
    (hn : r.metadata.sample_size ≠ 0) :
    (r.counts.map Prod.snd).sum = r.metadata.sample_size ∧
      (r.actual_dist.map Prod.snd).sum = 1 := by
  unfold analyze at hok
  cases hbase : baseMap numeral_system with
  | none =>
    rw [hbase] at hok
    exact absurd hok (by simp)
  | some base =>
    rw [hbase] at hok
    simp only [] at hok
    split at hok
    · rw [Except.ok.injEq] at hok
      subst hok
      simp [emptyResult, emptyMetadata] at hn
    · split at hok
      · rw [Except.ok.injEq] at hok
        subst hok
        simp [emptyResult, emptyMetadata] at hn
      · rw [Except.ok.injEq] at hok
        subst hok
        set keys := theoreticalDigits base digit_position with hkeys
        set digits := (extractValidNumbers t).1.map fun num =>
          getDigitAtPosition num base digit_position with hdigits
        set cnt := (tallyAll keys digits).1 with hcnt
        set n := (tallyAll keys digits).2 with hnv
        have hnd := theoreticalDigits_nodup base digit_position
        have hsum : (keys.map cnt).sum = n := tallyAll_sum keys hnd digits
        constructor
        · simp only [List.map_map]
          exact hsum
        · simp only [List.map_map]
          have hdiv := sum_map_div keys (fun d => (cnt d : ℚ)) (n : ℚ)
          rw [show (List.map (Prod.snd ∘ fun d => (formatDigit d, (cnt d : ℚ) / (n : ℚ))) keys)
                = List.map (fun d => (cnt d : ℚ) / (n : ℚ)) keys from rfl]
          rw [hdiv]
          have hcast : (List.map (fun d => ((cnt d : ℕ) : ℚ)) keys).sum
              = (((keys.map cnt).sum : ℕ) : ℚ) := by
            rw [Nat.cast_list_sum, List.map_map]
            rfl
          rw [hcast, hsum]
          have hne : ((n : ℕ) : ℚ) ≠ 0 := Nat.cast_ne_zero.mpr (by simpa using hn)
          exact div_self hne

/-- C7 (witness): the invariant theorem applied to a concrete
10-value table that passes both gates. -/
theorem count_total_invariant_witness :
    ((resOk (analyze zeroOracles
          ⟨["item", "amount"],
            [[some "a", some "11"], [some "a", some "12"], [some "a", some "13"],
             [some "a", some "14"], [some "a", some "15"], [some "a", some "16"],
             [some "a", some "17"], [some "a", some "18"], [some "a", some "19"],
             [some "a", some "21"]]⟩ 1 "decimal")).counts.map Prod.snd).sum
        = (resOk (analyze zeroOracles
          ⟨["item", "amount"],
            [[some "a", some "11"], [some "a", some "12"], [some "a", some "13"],
             [some "a", some "14"], [some "a", some "15"], [some "a", some "16"],
             [some "a", some "17"], [some "a", some "18"], [some "a", some "19"],
             [some "a", some "21"]]⟩ 1 "decimal")).metadata.sample_size ∧
      ((resOk (analyze zeroOracles
          ⟨["item", "amount"],
            [[some "a", some "11"], [some "a", some "12"], [some "a", some "13"],
             [some "a", some "14"], [some "a", some "15"], [some "a", some "16"],
             [some "a", some "17"], [some "a", some "18"], [some "a", some "19"],
             [some "a", some "21"]]⟩ 1 "decimal")).actual_dist.map Prod.snd).sum = 1 :=
  count_total_invariant zeroOracles _ 1 "decimal" _
    (eq_ok_resOk _ (analyze_isOk_of_base zeroOracles _ 1 "decimal" 10 (by decide)))
    (by decide)

end BenfordApp
